import Mathlib

/-!
Verification of the phone-number extraction core of `phone_number_finder.py`.

The Python source is shallowly embedded here:
  - Python strings are `String` / `List Char` (claim inputs are ASCII; the
    regex classes `\s` and `\d` and `str.strip`/`str.lower` are modelled over
    their ASCII portions, which is all the source's patterns and the claims
    exercise).
  - The regular expressions of the source use only ordered alternation over
    fixed words, single-character classes with greedy counted quantifiers,
    and one trailing capture group.  `matchCore` below is a complete
    backtracking matcher for exactly that fragment, trying repetition counts
    from the greedy maximum downwards and alternatives in written order, so
    it finds the same match (and the same matched span) as CPython's `re`.
  - `re.findall` is modelled by scanning positions left to right and
    resuming after each non-overlapping match, as CPython does.
  - Fallible Python functions returning `None` become `Option`.
-/

namespace PhoneNumberFinder

/-- ASCII portion of the regex class `\s` (also used for `str.strip`). -/
def isWSB (c : Char) : Bool :=
  c == ' ' || c == '\t' || c == '\n' || c == '\r' || c == '\x0b' || c == '\x0c'

/-- ASCII portion of the regex class `\d`. -/
def isDigitB (c : Char) : Bool := c.isDigit

/-- The regex class of a whitespace or a hyphen, written `[\s\-]` in the source. -/
def isWH (c : Char) : Bool := isWSB c || c == '-'

/-- The capture class of the labeled-context rules: `+`, digits, whitespace,
hyphen and parentheses. -/
def isCapClass (c : Char) : Bool :=
  c == '+' || isDigitB c || isWSB c || c == '-' || c == '(' || c == ')'

/-- A colon or a dot, the optional separator after a label. -/
def isColonDot (c : Char) : Bool := c == ':' || c == '.'

/-- One element of a regex: a character class repeated between `lo` and `hi`
times (`hi = none` meaning unbounded), matched greedily. -/
structure REl where
  pred : Char → Bool
  lo : Nat
  hi : Option Nat

/-- A literal character (case-sensitive). -/
def chP (c : Char) : REl := ⟨fun x => x == c, 1, some 1⟩

/-- A literal character compared case-insensitively (`c` given lowercase). -/
def ciP (c : Char) : REl := ⟨fun x => x.toLower == c, 1, some 1⟩

/-- A counted digit group `\d` with bounds `lo`..`hi`. -/
def dR (lo hi : Nat) : REl := ⟨isDigitB, lo, some hi⟩

/-- `[\s\-]*` -/
def whStar : REl := ⟨isWH, 0, none⟩

/-- `\s*` -/
def wsStar : REl := ⟨isWSB, 0, none⟩

/-- Length of the maximal prefix of `s` whose characters satisfy `p`. -/
def runLen (p : Char → Bool) : List Char → Nat
  | [] => 0
  | c :: cs => if p c then runLen p cs + 1 else 0

/-- Greedy cap on the repetitions element `e` can consume from `s`. -/
def maxReps (e : REl) (s : List Char) : Nat :=
  match e.hi with
  | none => runLen e.pred s
  | some h => min h (runLen e.pred s)

/-- Try repetition counts `k, k-1, ..., lo` in that (greedy) order, feeding the
rest of the pattern through `f`; the first success wins, as in a backtracking
regex engine. -/
def pickK (f : Nat → Option (List Nat)) (lo : Nat) : Nat → Option (List Nat)
  | 0 =>
      if lo = 0 then
        match f 0 with
        | some ns => some (0 :: ns)
        | none => none
      else none
  | k + 1 =>
      if lo ≤ k + 1 then
        match f (k + 1) with
        | some ns => some ((k + 1) :: ns)
        | none => pickK f lo k
      else none

/-- Backtracking matcher for a sequence of elements anchored at the head of
`s`.  On success it returns how many characters each element consumed, for the
first match in greedy order — the same disambiguation CPython's `re` uses. -/
def matchCore : List REl → List Char → Option (List Nat)
  | [], _ => some []
  | e :: es, s => pickK (fun k => matchCore es (s.drop k)) e.lo (maxReps e s)

/-- `re.match(pattern, s)` truthiness: the pattern matches at the start of `s`
(a prefix match; the pattern need not consume all of `s`). -/
def rmatch (pat : List REl) (s : List Char) : Bool := (matchCore pat s).isSome

/-- The 15 phone-number regexes of `self.phone_patterns` (source lines 38-57),
in source order. -/
def phone_patterns : List (List REl) :=
  [ -- +49[\s\-]*\d{2,4}[\s\-]*\d{2,4}[\s\-]*\d{1,4}[\s\-]*\d{1,4}
    [chP '+', chP '4', chP '9', whStar, dR 2 4, whStar, dR 2 4, whStar, dR 1 4, whStar, dR 1 4],
    -- +49\s*\(\d{2,4}\)\s*\d{2,4}[\s\-]*\d{1,4}[\s\-]*\d{1,4}
    [chP '+', chP '4', chP '9', wsStar, chP '(', dR 2 4, chP ')', wsStar, dR 2 4, whStar, dR 1 4, whStar, dR 1 4],
    -- +49\s*\d{2,4}\s*\d{2,4}\s*\d{1,4}[\s\-]*\d{1,4}
    [chP '+', chP '4', chP '9', wsStar, dR 2 4, wsStar, dR 2 4, wsStar, dR 1 4, whStar, dR 1 4],
    -- 0\d{2,4}[\s\-]*\d{2,4}[\s\-]*\d{1,4}[\s\-]*\d{1,4}
    [chP '0', dR 2 4, whStar, dR 2 4, whStar, dR 1 4, whStar, dR 1 4],
    -- 0\d{2,4}\s*\d{2,4}\s*\d{1,4}[\s\-]*\d{1,4}
    [chP '0', dR 2 4, wsStar, dR 2 4, wsStar, dR 1 4, whStar, dR 1 4],
    -- 0\d{2,4}[\s\-]*\d{2,4}[\s\-]*\d{1,4}
    [chP '0', dR 2 4, whStar, dR 2 4, whStar, dR 1 4],
    -- +49\s*\(\d{2,4}\)\s*\d{2,4}\s*\d{1,4}
    [chP '+', chP '4', chP '9', wsStar, chP '(', dR 2 4, chP ')', wsStar, dR 2 4, wsStar, dR 1 4],
    -- \(\d{2,4}\)\s*\d{2,4}\s*\d{1,4}
    [chP '(', dR 2 4, chP ')', wsStar, dR 2 4, wsStar, dR 1 4],
    -- \d{2,4}\s*\/\s*\d{2,4}\s*\d{1,4}
    [dR 2 4, wsStar, chP '/', wsStar, dR 2 4, wsStar, dR 1 4],
    -- 0800[\s\-]*\d{3,4}[\s\-]*\d{3,4}
    [chP '0', chP '8', chP '0', chP '0', whStar, dR 3 4, whStar, dR 3 4],
    -- +49\s*\d{2,4}\s*\d{3,4}\s*\d{3,4}
    [chP '+', chP '4', chP '9', wsStar, dR 2 4, wsStar, dR 3 4, wsStar, dR 3 4],
    -- 0\d{2,4}\s*\d{3,4}\s*\d{3,4}
    [chP '0', dR 2 4, wsStar, dR 3 4, wsStar, dR 3 4],
    -- +49[\s\-]*\d{2,4}[\s\-]*\d{3,4}[\s\-]*\d{3,4}
    [chP '+', chP '4', chP '9', whStar, dR 2 4, whStar, dR 3 4, whStar, dR 3 4],
    -- 0\d{2,4}[\s\-]*\d{3,4}[\s\-]*\d{3,4}
    [chP '0', dR 2 4, whStar, dR 3 4, whStar, dR 3 4],
    -- 01[567]\d[\s\-]*\d{3,4}[\s\-]*\d{3,4}
    [chP '0', chP '1', ⟨fun c => c == '5' || c == '6' || c == '7', 1, some 1⟩,
      ⟨isDigitB, 1, some 1⟩, whStar, dR 3 4, whStar, dR 3 4] ]

/-- Does `s` start (case-insensitively) with the lowercase word `a`? -/
def ciStarts : List Char → List Char → Bool
  | [], _ => true
  | _ :: _, [] => false
  | a :: as, c :: cs => (c.toLower == a) && ciStarts as cs

/-- Does `s` start with the exact word `a`? -/
def startsWithL : List Char → List Char → Bool
  | [], _ => true
  | _ :: _, [] => false
  | a :: as, c :: cs => (a == c) && startsWithL as cs

/-- The six label words removed by line 65 of the source,
`(tel:|telefon:|phone:|tel\.|telefon\.|phone\.)` with `re.IGNORECASE`,
in alternation order. -/
def labelAlts : List (List Char) :=
  [ ['t','e','l',':'], ['t','e','l','e','f','o','n',':'], ['p','h','o','n','e',':'],
    ['t','e','l','.'], ['t','e','l','e','f','o','n','.'], ['p','h','o','n','e','.'] ]

/-- Length of the first alternative of `alts` matching at the head of `s`
(case-insensitively), if any — ordered alternation. -/
def firstAltLen : List (List Char) → List Char → Option Nat
  | [], _ => none
  | a :: as, s => if ciStarts a s then some a.length else firstAltLen as s

/-- Worker for the label-removing substitution.  A positive `skip` means that
many characters of an already-recognized label remain to be discarded before
scanning resumes; the recursion is structural on the character list. -/
def delabelAux : Nat → List Char → List Char
  | _ + 1, [] => []
  | skip + 1, _ :: t => delabelAux skip t
  | 0, [] => []
  | 0, c :: t =>
      match firstAltLen labelAlts (c :: t) with
      | some n => delabelAux (n - 1) t
      | none => c :: delabelAux 0 t

/-- `re.sub(r'(tel:|telefon:|phone:|tel\.|telefon\.|phone\.)', '', phone,
flags=re.IGNORECASE)` — source line 65.  Matches are removed left to right,
non-overlapping; scanning resumes after each removed label. -/
def delabelL (l : List Char) : List Char := delabelAux 0 l

/-- `Python str.strip()` over its ASCII whitespace: drop leading whitespace,
then drop trailing whitespace (via a reversal). -/
def stripL (l : List Char) : List Char :=
  ((l.dropWhile isWSB).reverse.dropWhile isWSB).reverse

/-- If `s` starts with `+49`, then optional whitespace, then `(0)`, the total
length of that match; otherwise `none`. -/
def plus49At (s : List Char) : Option Nat :=
  match s with
  | '+' :: '4' :: '9' :: rest =>
      let w := runLen isWSB rest
      if startsWithL ['(', '0', ')'] (rest.drop w) then some (3 + w + 3) else none
  | _ => none

/-- Worker for the trunk-marker substitution, with a pending skip count as in
`delabelAux`. -/
def sub49Aux : Nat → List Char → List Char
  | _ + 1, [] => []
  | skip + 1, _ :: t => sub49Aux skip t
  | 0, [] => []
  | 0, c :: t =>
      match plus49At (c :: t) with
      | some n => '+' :: '4' :: '9' :: sub49Aux (n - 1) t
      | none => c :: sub49Aux 0 t

/-- `re.sub(r'\+49\s*\(0\)', '+49', phone)` — source line 69.  Each match is
replaced by the literal `+49` (no space is inserted). -/
def sub49L (l : List Char) : List Char := sub49Aux 0 l

/-- Worker for `re.sub(r'\s+', ' ', phone)` — source line 72.  The flag records
whether we are inside a whitespace run (whose first character already emitted
the single replacement space). -/
def collAux (inWS : Bool) : List Char → List Char
  | [] => []
  | c :: t =>
      if isWSB c then
        if inWS then collAux true t else ' ' :: collAux true t
      else c :: collAux false t

/-- `re.sub(r'\s+', ' ', phone)`: collapse every whitespace run to one space. -/
def collapseL (l : List Char) : List Char := collAux false l

/-- The transformation stage of `clean_phone_number` (source lines 65-72):
label stripping, `str.strip`, trunk-marker collapse, whitespace collapse,
in source order. -/
def normalize_steps (s : String) : String :=
  String.mk (collapseL (sub49L (stripL (delabelL s.data))))

/-- Does the (already normalized) string match some phone pattern at its
start?  This is the validation loop of source lines 74-79. -/
def validatesStr (s : String) : Bool :=
  phone_patterns.any (fun pat => rmatch pat s.data)

/-- `clean_phone_number` on an actual string argument (source lines 59-79):
empty input is falsy and yields `None`; otherwise the input is transformed
and returned exactly when it re-matches some pattern. -/
def clean_phone_number_s (phone : String) : Option String :=
  if phone = "" then none
  else if validatesStr (normalize_steps phone) then some (normalize_steps phone) else none

/-- `clean_phone_number` including the `None` argument case (`if not phone`). -/
def clean_phone_number : Option String → Option String
  | none => none
  | some p => clean_phone_number_s p

/-- A label-anchored rule of `prefix_patterns` (source lines 86-90): an
ordered alternation of label words followed by a fixed element sequence whose
last element is the capture group `([+\d\s\-\(\)]+)`. -/
structure LPat where
  alts : List (List Char)
  elems : List REl

/-- Ordered alternation over the label words, each followed by the element
sequence with full backtracking: the first alternative whose continuation
succeeds wins, as in CPython.  Returns the matched label length and the
per-element consumption. -/
def matchAlts : List (List Char) → List REl → List Char → Option (Nat × List Nat)
  | [], _, _ => none
  | a :: as, elems, s =>
      if ciStarts a s then
        match matchCore elems (s.drop a.length) with
        | some ns => some (a.length, ns)
        | none => matchAlts as elems s
      else matchAlts as elems s

/-- The common tail `\s*[:\.]?\s*([+\d\s\-\(\)]+)` of the first two
label-anchored rules. -/
def labelTail : List REl :=
  [wsStar, ⟨isColonDot, 0, some 1⟩, wsStar, ⟨isCapClass, 1, none⟩]

/-- `(?:fon|tel|telefon|phone|tel\.|telefon\.|phone\.)\s*[:\.]?\s*([+\d\s\-\(\)]+)`
(source line 87; `re.findall` is called with `re.IGNORECASE`). -/
def lp1 : LPat :=
  ⟨[ ['f','o','n'], ['t','e','l'], ['t','e','l','e','f','o','n'], ['p','h','o','n','e'],
     ['t','e','l','.'], ['t','e','l','e','f','o','n','.'], ['p','h','o','n','e','.'] ],
   labelTail⟩

/-- `(?:Telefon|Telefonnummer|Tel\.|Fon\.)\s*[:\.]?\s*([+\d\s\-\(\)]+)`
(source line 88, also matched case-insensitively). -/
def lp2 : LPat :=
  ⟨[ ['t','e','l','e','f','o','n'], ['t','e','l','e','f','o','n','n','u','m','m','e','r'],
     ['t','e','l','.'], ['f','o','n','.'] ],
   labelTail⟩

/-- `(?:Mietverwaltung|WEG-Verwaltung)\s*:\s*Tel\.\s*([+\d\s\-\(\)]+)`
(source line 89, matched case-insensitively). -/
def lp3 : LPat :=
  ⟨[ ['m','i','e','t','v','e','r','w','a','l','t','u','n','g'],
     ['w','e','g','-','v','e','r','w','a','l','t','u','n','g'] ],
   [wsStar, chP ':', wsStar, ciP 't', ciP 'e', ciP 'l', chP '.', wsStar,
    ⟨isCapClass, 1, none⟩]⟩

/-- The three label-anchored rules of `prefix_patterns`, in source order. -/
def prefix_patterns : List LPat := [lp1, lp2, lp3]

/-- The capture-group text of a label-anchored match: the characters consumed
by the last element, located after the label and the earlier elements. -/
def lcap (s : List Char) (aL : Nat) (ns : List Nat) : List Char :=
  (s.drop (aL + ns.dropLast.sum)).take ((ns.getLast?).getD 0)

/-- Worker for `re.findall` on a label-anchored rule.  A positive `skip` is
the remainder of a recorded match still to be stepped over; a match of length
`L ≥ 1` at the current position records its capture and resumes `L` characters
later. -/
def scanLPatAux (p : LPat) : Nat → List Char → List (List Char)
  | _ + 1, [] => []
  | skip + 1, _ :: t => scanLPatAux p skip t
  | 0, [] =>
      match matchAlts p.alts p.elems [] with
      | some (aL, ns) => [lcap [] aL ns]
      | none => []
  | 0, c :: t =>
      match matchAlts p.alts p.elems (c :: t) with
      | none => scanLPatAux p 0 t
      | some (aL, ns) =>
          match aL + ns.sum with
          | 0 => lcap (c :: t) aL ns :: scanLPatAux p 0 t
          | L + 1 => lcap (c :: t) aL ns :: scanLPatAux p L t

/-- `re.findall` for a label-anchored rule: scan left to right, record each
match's capture group, resume after the whole match (non-overlapping). -/
def scanLPat (p : LPat) (l : List Char) : List (List Char) := scanLPatAux p 0 l

/-- Worker for `re.findall` on a plain pattern, with the same skip scheme. -/
def scanPatAux (pat : List REl) : Nat → List Char → List (List Char)
  | _ + 1, [] => []
  | skip + 1, _ :: t => scanPatAux pat skip t
  | 0, [] =>
      match matchCore pat [] with
      | some _ => [[]]
      | none => []
  | 0, c :: t =>
      match matchCore pat (c :: t) with
      | none => scanPatAux pat 0 t
      | some ns =>
          match ns.sum with
          | 0 => [] :: scanPatAux pat 0 t
          | L + 1 => (c :: t).take (L + 1) :: scanPatAux pat L t

/-- `re.findall` for a plain pattern (no group): scan left to right, record
each whole match, resume after it. -/
def scanPat (pat : List REl) (l : List Char) : List (List Char) := scanPatAux pat 0 l

/-- Cleanup of one captured run (source lines 96-98):
`re.sub(r'[^\d\s\-\(\)\+]', '', match).strip()`, appended only if non-empty. -/
def capture_clean (cap : List Char) : Option String :=
  let phone := stripL (cap.filter isCapClass)
  if phone = [] then none else some (String.mk phone)

/-- `'fax' in phone.lower()` (source line 111). -/
def hasSub (needle : List Char) : List Char → Bool
  | [] => needle.isEmpty
  | c :: t => startsWithL needle (c :: t) || hasSub needle t

/-- The fax test of source line 111 on the raw matched string. -/
def containsFax (phone : String) : Bool :=
  hasSub ['f','a','x'] (phone.data.map Char.toLower)

/-- The validation loop of source lines 106-113: clean each raw match, keep it
if cleaning succeeded, it is truthy, not already kept, and the raw match does
not contain `fax`. -/
def validate_loop : List String → List String → List String
  | [], acc => acc
  | phone :: rest, acc =>
      match clean_phone_number_s phone with
      | none => validate_loop rest acc
      | some cleaned =>
          if cleaned ≠ "" ∧ cleaned ∉ acc then
            if containsFax phone then validate_loop rest acc
            else validate_loop rest (acc ++ [cleaned])
          else validate_loop rest acc

/-- `extract_phone_from_text` (source lines 81-114): the labeled-context pass,
then the structural pass over all phone patterns, then the validation loop. -/
def extract_phone_from_text (text : String) : List String :=
  let t := text.data
  let phones1 := prefix_patterns.foldl
    (fun acc lp => acc ++ (scanLPat lp t).filterMap capture_clean) []
  let phones := phone_patterns.foldl
    (fun acc pat => acc ++ (scanPat pat t).map String.mk) phones1
  validate_loop phones []

/-- `phone.startswith('01')` (source line 213). -/
def startsWith01 (p : String) : Bool :=
  match p.data with
  | '0' :: '1' :: _ => true
  | _ => false

/-- `list(set(phones))` keeping the first occurrence of each string.  Python's
set enumeration order is arbitrary but deterministic; first-occurrence order
is the deterministic enumeration chosen by this model. -/
def dedupFirst : List String → List String
  | [] => []
  | x :: xs => x :: (dedupFirst xs).filter (fun y => y ≠ x)

/-- `select_best_phone` (source lines 196-217): `None` on an empty list, else
the first deduplicated candidate not starting with `01`, else the first
deduplicated candidate.  (The `priority_keywords` list of lines 205-208 is
declared but never used by the source.) -/
def select_best_phone (phones : List String) : Option String :=
  if phones = [] then none
  else
    match (dedupFirst phones).find? (fun p => !startsWith01 p) with
    | some p => some p
    | none => (dedupFirst phones).head?

/-- The candidate-gathering of the contact-page loop (source lines 163-181):
extract from each of the first pages in turn, stopping at the first page that
yields any candidate. -/
def firstContact : List String → List String
  | [] => []
  | t :: rest =>
      if extract_phone_from_text t = [] then firstContact rest
      else extract_phone_from_text t

/-- The candidate gathering of `scrape_website` (source lines 156-182), with
the fetched page texts supplied as inputs: extract from the main page; if that
is empty, take the first non-empty extraction among (at most) the first three
contact pages. -/
def gathered_phones (mainText : String) (contactTexts : List String) : List String :=
  if extract_phone_from_text mainText = [] then firstContact (contactTexts.take 3)
  else extract_phone_from_text mainText

/-- The final line of the pure part: `select_best_phone(all_phones)` if the
gathered list is non-empty, else `None` (source line 184). -/
def scrape_website_model (mainText : String) (contactTexts : List String) : Option String :=
  if gathered_phones mainText contactTexts = [] then none
  else select_best_phone (gathered_phones mainText contactTexts)

/-- One iteration of the row loop of `process_csv` (source lines 229-244):
strip the two fields, skip the row if either is empty, otherwise record
`[company_name, website, phone]` with an empty phone for a falsy result.
`fetch` supplies the page texts the network would produce for a website. -/
def process_row (fetch : String → String × List String) (row : String × String) :
    Option (List String) :=
  if String.mk (stripL row.1.data) = "" ∨ String.mk (stripL row.2.data) = "" then none
  else
    match scrape_website_model (fetch (String.mk (stripL row.2.data))).1
        (fetch (String.mk (stripL row.2.data))).2 with
    | some phone =>
        if phone = "" then some [String.mk (stripL row.1.data), String.mk (stripL row.2.data), ""]
        else some [String.mk (stripL row.1.data), String.mk (stripL row.2.data), phone]
    | none => some [String.mk (stripL row.1.data), String.mk (stripL row.2.data), ""]

/-- The result table built by `process_csv` (source lines 219-256). -/
def process_csv_model (fetch : String → String × List String)
    (rows : List (String × String)) : List (List String) :=
  rows.filterMap (process_row fetch)

/-- `save_results` (source lines 262-267): the header row followed by the
result rows. -/
def save_results_model (results : List (List String)) : List (List String) :=
  ["company_name", "website", "phone"] :: results

/-- Reading the saved table back: the rows after the header. -/
def read_table (table : List (List String)) : List (List String) :=
  table.drop 1

/-! ### Helper lemmas about the selector -/

theorem mem_of_mem_dedupFirst {a : String} : ∀ {l : List String}, a ∈ dedupFirst l → a ∈ l
  | [], h => by simp [dedupFirst] at h
  | x :: xs, h => by
      simp only [dedupFirst, List.mem_cons] at h ⊢
      rcases h with h | h
      · exact Or.inl h
      · exact Or.inr (mem_of_mem_dedupFirst (List.mem_of_mem_filter h))

theorem mem_dedupFirst_of_mem {a : String} : ∀ {l : List String}, a ∈ l → a ∈ dedupFirst l
  | x :: xs, h => by
      simp only [List.mem_cons] at h
      simp only [dedupFirst, List.mem_cons]
      rcases h with h | h
      · exact Or.inl h
      · by_cases hax : a = x
        · exact Or.inl hax
        · exact Or.inr (List.mem_filter.2 ⟨mem_dedupFirst_of_mem h, by simp [hax]⟩)

theorem dedupFirst_ne_nil {l : List String} (h : l ≠ []) : dedupFirst l ≠ [] := by
  cases l with
  | nil => exact absurd rfl h
  | cons x xs => simp [dedupFirst]

theorem select_best_phone_mem {phones : List String} {p : String}
    (h : select_best_phone phones = some p) : p ∈ phones := by
  unfold select_best_phone at h
  split at h
  · exact absurd h (by simp)
  · rename_i hne
    split at h
    · rename_i q hq
      cases h
      exact mem_of_mem_dedupFirst (List.mem_of_find?_eq_some hq)
    · cases hd : dedupFirst phones with
      | nil => exact absurd hd (dedupFirst_ne_nil hne)
      | cons y ys =>
          rw [hd] at h
          simp only [List.head?_cons, Option.some.injEq] at h
          subst h
          exact mem_of_mem_dedupFirst (hd ▸ List.mem_cons_self y ys)

theorem select_best_phone_isSome {phones : List String} (h : phones ≠ []) :
    (select_best_phone phones).isSome = true := by
  unfold select_best_phone
  split
  · exact absurd (by assumption) h
  · split
    · simp
    · cases hd : dedupFirst phones with
      | nil => exact absurd hd (dedupFirst_ne_nil h)
      | cons y ys => simp [hd]

theorem select_best_phone_not01 {phones : List String} {p : String}
    (hp : p ∈ phones) (h01 : startsWith01 p = false) :
    ∀ q, select_best_phone phones = some q → startsWith01 q = false := by
  intro q hq
  have hne : phones ≠ [] := by rintro rfl; simp at hp
  unfold select_best_phone at hq
  rw [if_neg hne] at hq
  split at hq
  · rename_i r hr
    cases hq
    have := List.find?_some hr
    simpa using this
  · rename_i hnone
    exfalso
    have := List.find?_eq_none.1 hnone p (mem_dedupFirst_of_mem hp)
    simp [h01] at this

/-! ### Helper lemmas about the extractor -/

theorem clean_phone_number_s_validates {ph c : String}
    (h : clean_phone_number_s ph = some c) : validatesStr c = true := by
  unfold clean_phone_number_s at h
  split at h
  · exact absurd h (by simp)
  · split at h
    · rename_i hv
      cases h
      exact hv
    · exact absurd h (by simp)

theorem validate_loop_validates :
    ∀ (l acc : List String), (∀ q ∈ acc, validatesStr q = true) →
      ∀ p ∈ validate_loop l acc, validatesStr p = true := by
  intro l
  induction l with
  | nil => intro acc hacc p hp; exact hacc p hp
  | cons phone rest ih =>
      intro acc hacc p hp
      unfold validate_loop at hp
      split at hp
      · exact ih acc hacc p hp
      · rename_i cleaned hclean
        split at hp
        · split at hp
          · exact ih acc hacc p hp
          · refine ih (acc ++ [cleaned]) ?_ p hp
            intro q hq
            rcases List.mem_append.1 hq with h | h
            · exact hacc q h
            · simp only [List.mem_singleton] at h
              subst h
              exact clean_phone_number_s_validates hclean
        · exact ih acc hacc p hp

theorem extract_validates {text p : String}
    (h : p ∈ extract_phone_from_text text) : validatesStr p = true := by
  unfold extract_phone_from_text at h
  exact validate_loop_validates _ _ (by intro q hq; simp at hq) p h

theorem validatesStr_empty : validatesStr "" = false := by decide

theorem extract_ne_empty {text p : String}
    (h : p ∈ extract_phone_from_text text) : p ≠ "" := by
  intro he
  have := extract_validates h
  rw [he, validatesStr_empty] at this
  exact Bool.noConfusion this

/-! ### Helper lemmas about the scrape/driver model -/

theorem firstContact_cases :
    ∀ ts : List String, firstContact ts = [] ∨
      ∃ t ∈ ts, firstContact ts = extract_phone_from_text t := by
  intro ts
  induction ts with
  | nil => exact Or.inl rfl
  | cons t rest ih =>
      have hfc : firstContact (t :: rest) =
          if extract_phone_from_text t = [] then firstContact rest
          else extract_phone_from_text t := rfl
      by_cases hc : extract_phone_from_text t = []
      · rw [hfc, if_pos hc]
        rcases ih with h | ⟨u, hu, hu2⟩
        · exact Or.inl h
        · exact Or.inr ⟨u, List.mem_cons_of_mem _ hu, hu2⟩
      · rw [hfc, if_neg hc]
        exact Or.inr ⟨t, List.mem_cons_self _ _, rfl⟩

theorem gathered_phones_eq (m : String) (cs : List String) :
    gathered_phones m cs =
      if extract_phone_from_text m = [] then firstContact (cs.take 3)
      else extract_phone_from_text m := rfl

theorem scrape_website_model_eq (m : String) (cs : List String) :
    scrape_website_model m cs =
      if gathered_phones m cs = [] then none
      else select_best_phone (gathered_phones m cs) := rfl

theorem mem_gathered {m : String} {cs : List String} {p : String}
    (h : p ∈ gathered_phones m cs) :
    (p ∈ extract_phone_from_text m) ∨ ∃ t ∈ cs.take 3, p ∈ extract_phone_from_text t := by
  rw [gathered_phones_eq] at h
  by_cases hm : extract_phone_from_text m = []
  · rw [if_pos hm] at h
    rcases firstContact_cases (cs.take 3) with hfc | ⟨t, ht, he⟩
    · rw [hfc] at h; simp at h
    · rw [he] at h
      exact Or.inr ⟨t, ht, h⟩
  · rw [if_neg hm] at h
    exact Or.inl h

theorem scrape_mem {m : String} {cs : List String} {p : String}
    (h : scrape_website_model m cs = some p) :
    (p ∈ extract_phone_from_text m) ∨ ∃ t ∈ cs.take 3, p ∈ extract_phone_from_text t := by
  rw [scrape_website_model_eq] at h
  by_cases hg : gathered_phones m cs = []
  · rw [if_pos hg] at h
    exact absurd h (by simp)
  · rw [if_neg hg] at h
    exact mem_gathered (select_best_phone_mem h)

theorem scrape_ne_empty {m : String} {cs : List String} {p : String}
    (h : scrape_website_model m cs = some p) : p ≠ "" := by
  rcases scrape_mem h with hm | ⟨t, _, hm⟩
  · exact extract_ne_empty hm
  · exact extract_ne_empty hm

theorem scrape_none_iff (m : String) (cs : List String) :
    scrape_website_model m cs = none ↔
      (extract_phone_from_text m = [] ∧ firstContact (cs.take 3) = []) := by
  rw [scrape_website_model_eq]
  by_cases hg : gathered_phones m cs = []
  · rw [if_pos hg]
    rw [gathered_phones_eq] at hg
    constructor
    · intro _
      by_cases hm : extract_phone_from_text m = []
      · rw [if_pos hm] at hg; exact ⟨hm, hg⟩
      · rw [if_neg hm] at hg; exact absurd hg hm
    · intro _; rfl
  · rw [if_neg hg]
    constructor
    · intro hnone
      exfalso
      have := select_best_phone_isSome hg
      rw [hnone] at this
      exact Bool.noConfusion this
    · rintro ⟨hmain, hfc⟩
      exfalso
      rw [gathered_phones_eq, if_pos hmain] at hg
      exact hg hfc

theorem process_row_eq (fetch : String → String × List String) (row : String × String) :
    process_row fetch row =
      if String.mk (stripL row.1.data) = "" ∨ String.mk (stripL row.2.data) = "" then none
      else
        match scrape_website_model (fetch (String.mk (stripL row.2.data))).1
            (fetch (String.mk (stripL row.2.data))).2 with
        | some phone =>
            if phone = "" then
              some [String.mk (stripL row.1.data), String.mk (stripL row.2.data), ""]
            else some [String.mk (stripL row.1.data), String.mk (stripL row.2.data), phone]
        | none => some [String.mk (stripL row.1.data), String.mk (stripL row.2.data), ""] := rfl

/-! ### Helper lemmas about the normalization passes

These support the idempotence analysis: the whitespace-collapsing pass is
genuinely idempotent and the strip pass is a no-op on collapsed output of
stripped input, while the label and trunk-marker substitutions can re-fire
(shown by the counterexamples below). -/

theorem dW_head {l : List Char} {c : Char}
    (h : (List.dropWhile isWSB l).head? = some c) : isWSB c = false := by
  induction l with
  | nil => simp at h
  | cons x xs ih =>
      rw [List.dropWhile_cons] at h
      by_cases hx : isWSB x
      · rw [if_pos hx] at h; exact ih h
      · rw [if_neg hx] at h
        simp only [List.head?_cons, Option.some.injEq] at h
        subst h
        exact Bool.eq_false_iff.2 hx

theorem dW_getLast? {l : List Char}
    (h : List.dropWhile isWSB l ≠ []) :
    (List.dropWhile isWSB l).getLast? = l.getLast? := by
  induction l with
  | nil => simp at h
  | cons x xs ih =>
      rw [List.dropWhile_cons]
      by_cases hx : isWSB x
      · rw [List.dropWhile_cons, if_pos hx] at h
        have hxs : xs ≠ [] := by
          rintro rfl; simp at h
        rw [if_pos hx, ih h]
        cases xs with
        | nil => exact absurd rfl hxs
        | cons y ys => rw [List.getLast?_cons_cons]
      · rw [if_neg hx]

theorem strip_head {l : List Char} {c : Char}
    (h : (stripL l).head? = some c) : isWSB c = false := by
  unfold stripL at h
  rw [List.head?_reverse] at h
  have hne : List.dropWhile isWSB (List.dropWhile isWSB l).reverse ≠ [] := by
    intro he
    rw [he] at h
    simp at h
  rw [dW_getLast? hne, List.getLast?_reverse] at h
  exact dW_head h

theorem strip_last {l : List Char} {c : Char}
    (h : (stripL l).getLast? = some c) : isWSB c = false := by
  unfold stripL at h
  rw [List.getLast?_reverse] at h
  exact dW_head h

theorem dW_self {l : List Char}
    (h : ∀ c, l.head? = some c → isWSB c = false) :
    List.dropWhile isWSB l = l := by
  cases l with
  | nil => rfl
  | cons x xs =>
      rw [List.dropWhile_cons, if_neg]
      rw [h x rfl]
      simp

theorem strip_fix {l : List Char}
    (hh : ∀ c, l.head? = some c → isWSB c = false)
    (hl : ∀ c, l.getLast? = some c → isWSB c = false) :
    stripL l = l := by
  unfold stripL
  rw [dW_self hh]
  rw [dW_self (l := l.reverse) (by intro c hc; rw [List.head?_reverse] at hc; exact hl c hc)]
  exact l.reverse_reverse

theorem sub49Aux_nil : ∀ skip : Nat, sub49Aux skip [] = []
  | 0 => rfl
  | _ + 1 => rfl

theorem sub49Aux_succ (s : Nat) (c : Char) (t : List Char) :
    sub49Aux (s + 1) (c :: t) = sub49Aux s t := rfl

theorem sub49Aux_zero_cons (c : Char) (t : List Char) :
    sub49Aux 0 (c :: t) =
      match plus49At (c :: t) with
      | some n => '+' :: '4' :: '9' :: sub49Aux (n - 1) t
      | none => c :: sub49Aux 0 t := rfl

theorem sub49Aux_zero_cons_some {c : Char} {t : List Char} {n : Nat}
    (hp : plus49At (c :: t) = some n) :
    sub49Aux 0 (c :: t) = '+' :: '4' :: '9' :: sub49Aux (n - 1) t := by
  rw [sub49Aux_zero_cons, hp]

theorem sub49Aux_zero_cons_none {c : Char} {t : List Char}
    (hp : plus49At (c :: t) = none) :
    sub49Aux 0 (c :: t) = c :: sub49Aux 0 t := by
  rw [sub49Aux_zero_cons, hp]

theorem sub49Aux_zero_ne_nil {l : List Char} (h : l ≠ []) : sub49Aux 0 l ≠ [] := by
  cases l with
  | nil => exact absurd rfl h
  | cons c t =>
      cases hp : plus49At (c :: t) with
      | some n => rw [sub49Aux_zero_cons_some hp]; simp
      | none => rw [sub49Aux_zero_cons_none hp]; simp

theorem sub49_head {l : List Char} {c : Char}
    (h : (sub49L l).head? = some c) : c = '+' ∨ l.head? = some c := by
  unfold sub49L at h
  cases l with
  | nil => rw [sub49Aux_nil] at h; simp at h
  | cons x t =>
      cases hp : plus49At (x :: t) with
      | some n =>
          rw [sub49Aux_zero_cons_some hp] at h
          simp only [List.head?_cons, Option.some.injEq] at h
          exact Or.inl h.symm
      | none =>
          rw [sub49Aux_zero_cons_none hp] at h
          simp only [List.head?_cons, Option.some.injEq] at h
          subst h
          exact Or.inr rfl

theorem getLast?_cons_of_ne_nil {c : Char} {t : List Char} (h : t ≠ []) :
    (c :: t).getLast? = t.getLast? := by
  cases t with
  | nil => exact absurd rfl h
  | cons y ys => exact List.getLast?_cons_cons

theorem sub49Aux_last :
    ∀ (l : List Char) (skip : Nat),
      sub49Aux skip l = [] ∨ (sub49Aux skip l).getLast? = some '9' ∨
        (sub49Aux skip l).getLast? = l.getLast? := by
  intro l
  induction l with
  | nil => intro skip; rw [sub49Aux_nil]; exact Or.inl rfl
  | cons c t ih =>
      intro skip
      cases skip with
      | succ s =>
          rw [sub49Aux_succ]
          by_cases ht : t = []
          · subst ht
            rw [sub49Aux_nil]
            exact Or.inl rfl
          · rcases ih s with h | h | h
            · exact Or.inl h
            · exact Or.inr (Or.inl h)
            · rw [getLast?_cons_of_ne_nil ht]
              exact Or.inr (Or.inr h)
      | zero =>
          cases hp : plus49At (c :: t) with
          | some n =>
              rw [sub49Aux_zero_cons_some hp]
              by_cases hz : sub49Aux (n - 1) t = []
              · rw [hz]
                exact Or.inr (Or.inl rfl)
              · rw [getLast?_cons_of_ne_nil (by simp),
                    getLast?_cons_of_ne_nil (by simp),
                    getLast?_cons_of_ne_nil hz]
                have ht : t ≠ [] := by
                  rintro rfl
                  exact hz (sub49Aux_nil _)
                rcases ih (n - 1) with h | h | h
                · exact absurd h hz
                · exact Or.inr (Or.inl h)
                · rw [h, ← getLast?_cons_of_ne_nil (c := c) ht]
                  exact Or.inr (Or.inr rfl)
          | none =>
              rw [sub49Aux_zero_cons_none hp]
              by_cases hz : sub49Aux 0 t = []
              · have ht : t = [] := by
                  by_contra hne
                  exact sub49Aux_zero_ne_nil hne hz
                subst ht
                rw [sub49Aux_nil]
                exact Or.inr (Or.inr rfl)
              · have ht : t ≠ [] := by
                  rintro rfl
                  exact hz (sub49Aux_nil _)
                rw [getLast?_cons_of_ne_nil hz]
                rcases ih 0 with h | h | h
                · exact absurd h hz
                · exact Or.inr (Or.inl h)
                · rw [h, ← getLast?_cons_of_ne_nil (c := c) ht]
                  exact Or.inr (Or.inr rfl)

theorem sub49_last {l : List Char} {c : Char}
    (h : (sub49L l).getLast? = some c) : c = '9' ∨ l.getLast? = some c := by
  rcases sub49Aux_last l 0 with he | he | he
  · unfold sub49L at h; rw [he] at h; simp at h
  · unfold sub49L at h; rw [he] at h
    cases h
    exact Or.inl rfl
  · unfold sub49L at h; rw [he] at h
    exact Or.inr h

theorem collAux_cons (b : Bool) (c : Char) (t : List Char) :
    collAux b (c :: t) =
      if isWSB c then (if b then collAux true t else ' ' :: collAux true t)
      else c :: collAux false t := rfl

theorem collAux_true_ws {c : Char} {t : List Char} (hc : isWSB c = true) :
    collAux true (c :: t) = collAux true t := by
  rw [collAux_cons, if_pos hc, if_pos rfl]

theorem collAux_false_ws {c : Char} {t : List Char} (hc : isWSB c = true) :
    collAux false (c :: t) = ' ' :: collAux true t := by
  rw [collAux_cons, if_pos hc, if_neg (by simp)]

theorem collAux_nws {b : Bool} {c : Char} {t : List Char} (hc : isWSB c = false) :
    collAux b (c :: t) = c :: collAux false t := by
  rw [collAux_cons, if_neg (by simp [hc])]

theorem collAux_true_head {t : List Char} {d : Char}
    (h : (collAux true t).head? = some d) : isWSB d = false := by
  induction t with
  | nil => simp [collAux] at h
  | cons c t' ih =>
      by_cases hc : isWSB c
      · rw [collAux_true_ws hc] at h
        exact ih h
      · rw [collAux_nws (Bool.eq_false_iff.2 hc)] at h
        simp only [List.head?_cons, Option.some.injEq] at h
        subst h
        exact Bool.eq_false_iff.2 hc

theorem collAux_true_of_head {l : List Char}
    (h : ∀ c, l.head? = some c → isWSB c = false) :
    collAux true l = collAux false l := by
  cases l with
  | nil => rfl
  | cons c t =>
      rw [collAux_nws (h c rfl), collAux_nws (h c rfl)]

theorem coll_idem_aux : ∀ (l : List Char) (b : Bool),
    collAux false (collAux b l) = collAux b l := by
  intro l
  induction l with
  | nil => intro b; rfl
  | cons c t ih =>
      intro b
      by_cases hc : isWSB c
      · cases b with
        | true =>
            rw [collAux_true_ws hc]
            exact ih true
        | false =>
            rw [collAux_false_ws hc, collAux_false_ws (by decide),
                collAux_true_of_head (by intro d hd; exact collAux_true_head hd), ih true]
      · rw [collAux_nws (Bool.eq_false_iff.2 hc),
            collAux_nws (b := false) (Bool.eq_false_iff.2 hc), ih false]

theorem collapse_idem (l : List Char) : collapseL (collapseL l) = collapseL l :=
  coll_idem_aux l false

theorem mem_of_getLast? {l : List Char} {c : Char} (h : l.getLast? = some c) : c ∈ l := by
  induction l with
  | nil => simp at h
  | cons x xs ih =>
      cases xs with
      | nil =>
          simp only [List.getLast?_singleton, Option.some.injEq] at h
          subst h
          exact List.mem_singleton_self _
      | cons y ys =>
          rw [List.getLast?_cons_cons] at h
          exact List.mem_cons_of_mem _ (ih h)

theorem getLast?_isSome_of_ne_nil {l : List Char} (h : l ≠ []) :
    ∃ c, l.getLast? = some c := by
  have := List.getLast?_isSome.2 h
  cases hg : l.getLast? with
  | none => rw [hg] at this; simp at this
  | some c => exact ⟨c, rfl⟩

theorem collAux_true_nil {t : List Char} (h : collAux true t = []) :
    ∀ z ∈ t, isWSB z = true := by
  induction t with
  | nil => intro z hz; simp at hz
  | cons u us ih =>
      intro z hz
      by_cases hu : isWSB u
      · rw [collAux_true_ws hu] at h
        rcases List.mem_cons.1 hz with rfl | hz2
        · exact hu
        · exact ih h z hz2
      · rw [collAux_nws (Bool.eq_false_iff.2 hu)] at h
        simp at h

theorem collAux_noTrail :
    ∀ (l : List Char) (b : Bool),
      (∀ x, l.getLast? = some x → isWSB x = false) →
      ∀ x, (collAux b l).getLast? = some x → isWSB x = false := by
  intro l
  induction l with
  | nil => intro b _ x hx; simp [collAux] at hx
  | cons c t ih =>
      intro b hnt x hx
      by_cases hc : isWSB c
      · have htne : t ≠ [] := by
          rintro rfl
          exact Bool.noConfusion (hnt c rfl ▸ hc)
        have hnt' : ∀ y, t.getLast? = some y → isWSB y = false := by
          intro y hy
          exact hnt y (by rw [getLast?_cons_of_ne_nil htne]; exact hy)
        cases b with
        | true =>
            rw [collAux_true_ws hc] at hx
            exact ih true hnt' x hx
        | false =>
            rw [collAux_false_ws hc] at hx
            by_cases hz : collAux true t = []
            · exfalso
              -- collAux true t = [] forces every character of t to be whitespace,
              -- contradicting that t's last character is not whitespace.
              obtain ⟨y, hy⟩ := getLast?_isSome_of_ne_nil htne
              have hyw : isWSB y = false := hnt' y hy
              exact Bool.noConfusion
                (hyw ▸ collAux_true_nil hz y (mem_of_getLast? hy))
            · rw [getLast?_cons_of_ne_nil hz] at hx
              exact ih true hnt' x hx
      · rw [collAux_nws (Bool.eq_false_iff.2 hc)] at hx
        by_cases hz : collAux false t = []
        · rw [hz] at hx
          simp only [List.getLast?_singleton, Option.some.injEq] at hx
          subst hx
          exact Bool.eq_false_iff.2 hc
        · rw [getLast?_cons_of_ne_nil hz] at hx
          have htne : t ≠ [] := by
            rintro rfl
            exact hz rfl
          have hnt' : ∀ y, t.getLast? = some y → isWSB y = false := by
            intro y hy
            exact hnt y (by rw [getLast?_cons_of_ne_nil htne]; exact hy)
          exact ih false hnt' x hx

theorem coll_head_preserve {z : List Char}
    (h : ∀ c, z.head? = some c → isWSB c = false) :
    ∀ c, (collapseL z).head? = some c → isWSB c = false := by
  intro c hc
  cases z with
  | nil => simp [collapseL, collAux] at hc
  | cons x t =>
      have hx : isWSB x = false := h x rfl
      have he : collapseL (x :: t) = x :: collAux false t := collAux_nws hx
      rw [he] at hc
      simp only [List.head?_cons, Option.some.injEq] at hc
      subst hc
      exact hx

/-- The strip pass is a no-op on the final output of the normalization chain:
the chain starts with a strip, and the later passes never reintroduce leading
or trailing whitespace. -/
theorem strip_collapse_fix (w : List Char) :
    stripL (collapseL (sub49L (stripL w))) = collapseL (sub49L (stripL w)) := by
  apply strip_fix
  · apply coll_head_preserve
    intro c hc
    rcases sub49_head hc with rfl | hc2
    · decide
    · exact strip_head hc2
  · apply collAux_noTrail
    intro x hx
    rcases sub49_last hx with rfl | hx2
    · decide
    · exact strip_last hx2

/-! ### Claim theorems -/

/-- C1: the claim states that a pattern match whose surrounding text contains
the token `fax` is excluded from `extract`'s result, and that on
`"Telefon: 089-123-4567, Fax: 089-123-9999"` only `089-123-4567` is returned.
The code's fax filter (line 111) tests the *matched substring itself*, which
consists only of digits, separators and parentheses and so can never contain
`fax`; on the quoted input the fax number is returned as well.  This theorem
evaluates the extractor at that failing input. -/
theorem c1_fax_not_excluded :
    extract_phone_from_text "Telefon: 089-123-4567, Fax: 089-123-9999" =
      ["089-123-4567", "089-123-9999"] := by decide

/-- C2 counterexample: normalizing `"+49(0)721-91225-35"` does not give
`"+49 721-91225-35"` — the substitution on source line 69 replaces the whole
`+49(0)` match by the literal `+49` and inserts no space. -/
theorem c2_counterexample :
    clean_phone_number_s "+49(0)721-91225-35" ≠ some "+49 721-91225-35" := by decide

/-- C2 (amended): normalizing `"+49(0)721-91225-35"` yields
`"+49721-91225-35"` (the parenthesized trunk marker is dropped with no space
inserted), and the result validates against the first pattern rule, the
international-prefix-with-area-code shape of source line 40. -/
theorem c2_normalize_trunk :
    clean_phone_number_s "+49(0)721-91225-35" = some "+49721-91225-35" ∧
    rmatch (phone_patterns.getD 0 []) "+49721-91225-35".data = true := by decide

/-- C3: `select` on an empty candidate collection is absent; whenever some
candidate does not start with the mobile marker `01`, the selected value never
starts with `01`; and on the two-candidate set of the claim (in either
enumeration order) the landline `089 1234567` is selected. -/
theorem c3_select_policy :
    select_best_phone [] = none ∧
    (∀ (phones : List String) (p : String), p ∈ phones → startsWith01 p = false →
      ∀ q, select_best_phone phones = some q → startsWith01 q = false) ∧
    select_best_phone ["089 1234567", "0151 1234567"] = some "089 1234567" ∧
    select_best_phone ["0151 1234567", "089 1234567"] = some "089 1234567" := by
  refine ⟨by decide, ?_, by decide, by decide⟩
  intro phones p hp h01 q hq
  exact select_best_phone_not01 hp h01 q hq

/-- Witness for C3: the hypotheses of the universal part are satisfiable. -/
theorem c3_select_policy_witness :
    select_best_phone ["089 1234567", "0151 1234567"] = some "089 1234567" ∧
    startsWith01 "089 1234567" = false :=
  ⟨by decide, c3_select_policy.2.1 ["089 1234567", "0151 1234567"] "089 1234567"
    (by decide) (by decide) "089 1234567" (by decide)⟩

/-- C4: every string returned by `extract` re-matches at least one pattern
rule at its start (the validation of source lines 74-79 after normalization);
this covers the labeled-context pass as well, since every candidate goes
through the same validation loop. -/
theorem c4_extract_revalidated :
    ∀ text p : String, p ∈ extract_phone_from_text text → validatesStr p = true := by
  intro text p h
  exact extract_validates h

/-- Witness for C4 at a concrete extraction. -/
theorem c4_extract_revalidated_witness :
    "089-123-4567" ∈ extract_phone_from_text "Telefon: 089-123-4567" ∧
    validatesStr "089-123-4567" = true :=
  ⟨by decide, c4_extract_revalidated "Telefon: 089-123-4567" "089-123-4567" (by decide)⟩

/-- C5 counterexample: the normalization transformation is not idempotent.
On `"+49(0)(0)30 123456"` the trunk-marker substitution consumes the first
`+49(0)` and the replacement text together with the following `(0)` forms a
fresh `+49(0)` occurrence, so a second normalization changes the string
again. -/
theorem c5_counterexample :
    normalize_steps (normalize_steps "+49(0)(0)30 123456") ≠
      normalize_steps "+49(0)(0)30 123456" := by decide

/-- C5 (amended): normalization is idempotent on every input whose normalized
form is left unchanged by the label-stripping and trunk-marker passes (the
only two passes whose rewriting can create a new occurrence of their own
pattern); the whitespace-collapse pass is idempotent outright and the strip
pass never has anything left to remove after a first normalization. -/
theorem c5_normalize_idem_amended :
    ∀ x : String,
      delabelL (normalize_steps x).data = (normalize_steps x).data →
      sub49L (normalize_steps x).data = (normalize_steps x).data →
      normalize_steps (normalize_steps x) = normalize_steps x := by
  intro x h1 h2
  show String.mk (collapseL (sub49L (stripL (delabelL (normalize_steps x).data)))) =
    normalize_steps x
  rw [h1]
  have hs : stripL (normalize_steps x).data = (normalize_steps x).data :=
    strip_collapse_fix (delabelL x.data)
  rw [hs, h2]
  have hcoll : collapseL (normalize_steps x).data = (normalize_steps x).data :=
    collapse_idem (sub49L (stripL (delabelL x.data)))
  rw [hcoll]

/-- Witness for C5 (amended) at a concrete input. -/
theorem c5_normalize_idem_amended_witness :
    delabelL (normalize_steps "Tel: 089 123 4567").data =
        (normalize_steps "Tel: 089 123 4567").data ∧
    normalize_steps (normalize_steps "Tel: 089 123 4567") =
      normalize_steps "Tel: 089 123 4567" :=
  ⟨by decide, c5_normalize_idem_amended "Tel: 089 123 4567" (by decide) (by decide)⟩

/-- C6 counterexample: the claim states that input untouched by all the
transformation rules passes through unchanged and that the absence of a
pattern match does not make normalize drop the input.  `"abc"` is untouched
by every transformation rule, yet `clean_phone_number` returns `None` for it
because the validation loop (lines 74-79) matches no pattern. -/
theorem c6_counterexample :
    delabelL "abc".data = "abc".data ∧ stripL "abc".data = "abc".data ∧
    sub49L "abc".data = "abc".data ∧ collapseL "abc".data = "abc".data ∧
    clean_phone_number (some "abc") = none := by decide

/-- C6 (amended): the transformation stage is total and pure, and an input
left unchanged by all four transformation rules is returned unchanged
*provided it validates against some pattern rule*; an input failing every
pattern yields the absent result rather than passing through. -/
theorem c6_normalize_total_amended :
    ∀ x : String, x ≠ "" →
      delabelL x.data = x.data → stripL x.data = x.data →
      sub49L x.data = x.data → collapseL x.data = x.data →
      validatesStr x = true →
      clean_phone_number (some x) = some x := by
  intro x hne h1 h2 h3 h4 hv
  show clean_phone_number_s x = some x
  have hn : normalize_steps x = x := by
    show String.mk (collapseL (sub49L (stripL (delabelL x.data)))) = x
    rw [h1, h2, h3, h4]
  unfold clean_phone_number_s
  rw [if_neg hne, hn, if_pos hv]

/-- Witness for C6 (amended) at a concrete input. -/
theorem c6_normalize_total_amended_witness :
    clean_phone_number (some "089-123-4567") = some "089-123-4567" :=
  c6_normalize_total_amended "089-123-4567" (by decide) (by decide) (by decide)
    (by decide) (by decide) (by decide)

/-- C7: an empty or null (`None`) input normalizes to the absent result, not
to an empty string. -/
theorem c7_empty_null_absent :
    clean_phone_number none = none ∧ clean_phone_number (some "") = none := by
  exact ⟨rfl, by decide⟩

/-- C8: writing the result table and reading it back yields exactly the
processed rows; each processed row carries the selected number (`getD ""`
collapses the absent case to the empty field); the phone field is empty
exactly when the scrape produced nothing; and the scrape produces nothing
exactly when no candidate was found on the main page nor on the (at most 3)
contact pages. -/
theorem c8_roundtrip :
    ∀ (fetch : String → String × List String) (rows : List (String × String)),
      read_table (save_results_model (process_csv_model fetch rows)) =
        process_csv_model fetch rows ∧
      process_csv_model fetch rows = rows.filterMap (fun row =>
        if String.mk (stripL row.1.data) = "" ∨ String.mk (stripL row.2.data) = "" then none
        else some [String.mk (stripL row.1.data), String.mk (stripL row.2.data),
          (scrape_website_model (fetch (String.mk (stripL row.2.data))).1
            (fetch (String.mk (stripL row.2.data))).2).getD ""]) ∧
      (∀ (m : String) (cs : List String),
        ((scrape_website_model m cs).getD "" = "" ↔ scrape_website_model m cs = none)) ∧
      (∀ (m : String) (cs : List String),
        (scrape_website_model m cs = none ↔
          (extract_phone_from_text m = [] ∧ firstContact (cs.take 3) = []))) := by
  intro fetch rows
  refine ⟨rfl, ?_, ?_, fun m cs => scrape_none_iff m cs⟩
  · unfold process_csv_model
    apply List.filterMap_congr
    intro row _
    rw [process_row_eq]
    by_cases hempty : String.mk (stripL row.1.data) = "" ∨ String.mk (stripL row.2.data) = ""
    · rw [if_pos hempty, if_pos hempty]
    · rw [if_neg hempty, if_neg hempty]
      cases hscr : scrape_website_model (fetch (String.mk (stripL row.2.data))).1
          (fetch (String.mk (stripL row.2.data))).2 with
      | none => rfl
      | some p =>
          show (if p = "" then
              some [String.mk (stripL row.1.data), String.mk (stripL row.2.data), ""]
            else some [String.mk (stripL row.1.data), String.mk (stripL row.2.data), p]) =
            some [String.mk (stripL row.1.data), String.mk (stripL row.2.data),
              (some p).getD ""]
          rw [if_neg (scrape_ne_empty hscr)]
          rfl
  · intro m cs
    cases hscr : scrape_website_model m cs with
    | none => simp
    | some p =>
        constructor
        · intro hp
          simp only [Option.getD_some] at hp
          exact absurd hp (scrape_ne_empty hscr)
        · intro hp
          exact absurd hp (by simp)

/-- C9: whatever `select` returns was one of the candidates handed to it —
the selector only chooses, it never fabricates or rewrites a value. -/
theorem c9_select_member :
    ∀ (phones : List String) (p : String),
      select_best_phone phones = some p → p ∈ phones := by
  intro phones p h
  exact select_best_phone_mem h

/-- Witness for C9 at a concrete selection. -/
theorem c9_select_member_witness :
    select_best_phone ["0151 123 4567"] = some "0151 123 4567" ∧
    "0151 123 4567" ∈ ["0151 123 4567"] :=
  ⟨by decide, c9_select_member ["0151 123 4567"] "0151 123 4567" (by decide)⟩

/-- C10: the selector's mobile test is exactly `startswith('01')`: the result
is the first deduplicated candidate not starting with the literal `01`,
falling back to the first candidate; consequently a mobile number written in
international form (`+49 1...`) is not classified as mobile and is selected
in preference to a `01...`-form candidate. -/
theorem c10_select_mobile_marker :
    (∀ phones : List String,
      select_best_phone phones =
        Option.orElse ((dedupFirst phones).find? (fun p => !startsWith01 p))
          (fun _ => (dedupFirst phones).head?)) ∧
    select_best_phone ["0151 999 8888", "+49 151 9998888"] = some "+49 151 9998888" ∧
    startsWith01 "+49 151 9998888" = false := by
  refine ⟨?_, by decide, by decide⟩
  intro phones
  by_cases h : phones = []
  · subst h
    rfl
  · unfold select_best_phone
    rw [if_neg h]
    cases hf : (dedupFirst phones).find? (fun p => !startsWith01 p) with
    | some p => rfl
    | none => rfl

end PhoneNumberFinder
